import Mathlib

/-!
Verification of the Ink language lexer (`pkg/ink/lexer.go`).

The Go source is shallowly embedded: the streaming `Tokenize` loop becomes a
fuel-indexed recursion over the input rune list, the token channel becomes an
accumulated token list inside the lexer state, and the two logger calls
(`LogErr` / `LogSafeErr`, which live outside the provided sources) are
recorded as diagnostic events in the state.  Go `int` becomes `Int`,
Go `float64` parsing is modelled over `Rat`, and Go strings become
`List Char` / `String`.
-/

set_option maxRecDepth 4000

namespace Ink

/-- Token kinds, mirroring the Go `Kind` enumeration in lexer.go
(including the parser-level kinds the lexer never emits). -/
inductive Kind where
  | Separator
  | UnaryExpr
  | BinaryExpr
  | MatchExpr
  | MatchClause
  | Identifier
  | EmptyIdentifier
  | FunctionCall
  | NumberLiteral
  | StringLiteral
  | ObjectLiteral
  | ListLiteral
  | FunctionLiteral
  | TrueLiteral
  | FalseLiteral
  | AccessorOp
  | EqualOp
  | FunctionArrow
  | KeyValueSeparator
  | DefineOp
  | MatchColon
  | CaseArrow
  | SubtractOp
  | NegationOp
  | AddOp
  | MultiplyOp
  | DivideOp
  | ModulusOp
  | GreaterThanOp
  | LessThanOp
  | LogicalAndOp
  | LogicalOrOp
  | LogicalXorOp
  | LeftParen
  | RightParen
  | LeftBracket
  | RightBracket
  | LeftBrace
  | RightBrace
  deriving DecidableEq, Repr

/-- The token record `Tok` of lexer.go: monomorphic `kind`/`str`/`num`
plus the embedded `position{line, col}` (flattened here).  `num` is a
`float64` in Go; it is modelled as an exact rational. -/
structure Tok where
  kind : Kind
  str : String
  num : Rat
  line : Int
  col : Int
  deriving DecidableEq, Repr

/-- Reason codes of the repository's `Err` type (from the spec's diagnostic
sink description; the lexer itself only ever uses the syntax reason,
Go constant `ErrSyntax`). -/
inductive ErrReason where
  | unknownError
  | syntaxError
  | runtimeError
  | systemError
  | assertError
  deriving DecidableEq, Repr

/-- Modelled from the spec: the diagnostic sink.  The lexer "calls out to two
named operations on a logger" (`LogErr`, fatal, and `LogSafeErr`, recoverable),
both taking a reason code and a message; those functions are not part of the
provided sources, so a call is recorded as an event with `safe := true` for
the `LogSafeErr` path and `safe := false` for the `LogErr` path. -/
structure LoggedErr where
  reason : ErrReason
  message : String
  safe : Bool
  deriving DecidableEq, Repr

/-- The mutable scan state of `Tokenize`: the accumulators, position counters,
`lastKind`, the string-literal mode flag, plus the emitted token stream
(Go: the `tokens` channel), the recorded diagnostics, and the `fatalError`
flag captured by the closures. -/
structure LexState where
  buf : List Char
  strbuf : List Char
  strbufStartLine : Int
  strbufStartCol : Int
  lastKind : Kind
  lineNo : Int
  colNo : Int
  inStringLiteral : Bool
  toks : List Tok
  errs : List LoggedErr
  fatalError : Bool
  deriving DecidableEq, Repr

/-- The `'` rune (Go `'\''`). -/
def quoteChar : Char := Char.ofNat 39

/-- The backquote rune starting Ink comments. -/
def commentChar : Char := Char.ofNat 96

/-- Go `unicode.IsSpace`: the Unicode White_Space code points. -/
def isSpace (c : Char) : Bool :=
  c.toNat ∈ [9, 10, 11, 12, 13, 32, 0x85, 0xA0, 0x1680,
    0x2000, 0x2001, 0x2002, 0x2003, 0x2004, 0x2005, 0x2006, 0x2007,
    0x2008, 0x2009, 0x200A, 0x2028, 0x2029, 0x202F, 0x205F, 0x3000]

/-- Go `unicode.IsDigit`, restricted to the ASCII decimal digits.  (Go also
accepts the other Unicode Nd code points; every input in this development is
ASCII, where the two agree.  In `commitClear` Go tests `rune(cbuf[0])`, the
first *byte*, which is a decimal digit exactly when the first rune is an
ASCII digit, so there the restriction is exact.) -/
def isDigit (c : Char) : Bool := c.isDigit

/-- Go `len` on the committed buffer: the UTF-8 byte length of the
accumulated runes (used in the `colNo - len(cbuf)` position arithmetic). -/
def byteLen (cs : List Char) : Nat := cs.foldl (fun n c => n + c.utf8Size) 0

/-- Decimal digit run to a natural number. -/
def digitsVal (ds : List Char) : Nat := ds.foldl (fun n c => 10 * n + (c.toNat - 48)) 0

/-- Model of Go `strconv.ParseFloat(s, 64)` on the decimal forms that can
reach it from the lexer: `digits [. digits*] [(e|E) [+|-] digits+]`, with the
whole string consumed.  The value is kept as an exact rational (float64
rounding is abstracted away, and the hexadecimal float forms Go additionally
accepts are not modelled; no claim exercises either).  On success Go returns
the parsed value; on syntax failure it returns 0 together with an error,
which is modelled by `none` (the caller substitutes 0). -/
def parseFloat (s : List Char) : Option Rat :=
  let ip := s.takeWhile isDigit
  let r1 := s.dropWhile isDigit
  if ip.isEmpty then none
  else
    let fp : List Char :=
      match r1 with
      | '.' :: t => t.takeWhile isDigit
      | _ => []
    let r2 : List Char :=
      match r1 with
      | '.' :: t => t.dropWhile isDigit
      | _ => r1
    -- the mantissa `ip.fp` is (ip * 10^|fp| + fp) / 10^|fp|; the exponent
    -- scales it by 10^e.  The value is assembled with `mkRat` so that it
    -- stays an exact, kernel-computable rational.
    let m : Nat := digitsVal ip * 10 ^ fp.length + digitsVal fp
    match r2 with
    | [] => some (mkRat m (10 ^ fp.length))
    | e :: t =>
      if e = 'e' ∨ e = 'E' then
        let neg : Bool :=
          match t with
          | '-' :: _ => true
          | _ => false
        let t2 : List Char :=
          match t with
          | '+' :: u => u
          | '-' :: u => u
          | _ => t
        if (!t2.isEmpty) && t2.all isDigit then
          some (if neg then mkRat m (10 ^ fp.length * 10 ^ digitsVal t2)
                else mkRat (m * 10 ^ digitsVal t2) (10 ^ fp.length))
        else none
      else none

/-- The `simpleCommit` closure: record `lastKind` and send the token. -/
def simpleCommit (st : LexState) (tok : Tok) : LexState :=
  { st with lastKind := tok.kind, toks := st.toks ++ [tok] }

/-- The `simpleCommitChar` closure: a bare token at the current position. -/
def simpleCommitChar (st : LexState) (kind : Kind) : LexState :=
  simpleCommit st { kind := kind, str := "", num := 0, line := st.lineNo, col := st.colNo }

/-- The message built for a failed number parse:
`"parsing error in number at %d:%d, %s"` with the `strconv` error text. -/
def numErrMsg (line col : Int) (cbuf : List Char) : String :=
  "parsing error in number at " ++ toString line ++ ":" ++ toString col ++
    ", strconv.ParseFloat: parsing \x22" ++ String.mk cbuf ++ "\x22: invalid syntax"

/-- The `commitClear` closure: flush the pending accumulator as
`true`/`false`/number/identifier (no-op when empty).  On a failed number
parse the diagnostic is logged (fatal path iff `fatalError`) and the
`NumberLiteral` is still emitted carrying Go's returned value 0. -/
def commitClear (st : LexState) : LexState :=
  match st.buf with
  | [] => st
  | c :: cs =>
    let cbuf := c :: cs
    let st1 := { st with buf := ([] : List Char) }
    if cbuf = "true".data then simpleCommitChar st1 .TrueLiteral
    else if cbuf = "false".data then simpleCommitChar st1 .FalseLiteral
    else if isDigit c then
      match parseFloat cbuf with
      | some f =>
        simpleCommit st1 { kind := .NumberLiteral, str := "", num := f,
                           line := st1.lineNo, col := st1.colNo - (byteLen cbuf : Int) }
      | none =>
        let e : LoggedErr :=
          { reason := .syntaxError, message := numErrMsg st1.lineNo st1.colNo cbuf,
            safe := !st1.fatalError }
        simpleCommit { st1 with errs := st1.errs ++ [e] }
          { kind := .NumberLiteral, str := "", num := 0,
            line := st1.lineNo, col := st1.colNo - (byteLen cbuf : Int) }
    else
      simpleCommit st1 { kind := .Identifier, str := String.mk cbuf, num := 0,
                         line := st1.lineNo, col := st1.colNo - (byteLen cbuf : Int) }

/-- The `commit` closure: flush the accumulator, then send `tok`. -/
def commit (st : LexState) (tok : Tok) : LexState :=
  simpleCommit (commitClear st) tok

/-- The `commitChar` closure: `commit` of a bare token at the current position. -/
def commitChar (st : LexState) (kind : Kind) : LexState :=
  commit st { kind := kind, str := "", num := 0, line := st.lineNo, col := st.colNo }

/-- The `lastKind` values after which `ensureSeparator` emits nothing
(the "continuation" kinds of its `switch`). -/
def contKinds : List Kind :=
  [.Separator, .LeftParen, .LeftBracket, .LeftBrace,
   .AddOp, .SubtractOp, .MultiplyOp, .DivideOp, .ModulusOp, .NegationOp,
   .GreaterThanOp, .LessThanOp, .EqualOp, .DefineOp, .AccessorOp,
   .KeyValueSeparator, .FunctionArrow, .MatchColon, .CaseArrow]

/-- The `ensureSeparator` closure: flush the accumulator, then synthesize a
`Separator` unless the previous token expects a continuation. -/
def ensureSeparator (st : LexState) : LexState :=
  let st1 := commitClear st
  if st1.lastKind ∈ contKinds then st1 else commitChar st1 .Separator

/-- Discard runes up to and including the next newline (the shebang loop and
the single-line-comment loop both read until `'\n'` or EOF). -/
def dropThroughNewline : List Char → List Char
  | [] => []
  | c :: rest => if c = '\n' then rest else dropThroughNewline rest

/-- The block-comment inner loop: consume until the closing backquote
(or EOF), advancing `lineNo`/`colNo` exactly as the Go loop does (a newline
resets the column to 0 and the unconditional `colNo++` then makes it 1). -/
def blockScan (lineNo colNo : Int) : List Char → Int × Int × List Char
  | [] => (lineNo, colNo, [])
  | c :: rest =>
    let l2 := if c = '\n' then lineNo + 1 else lineNo
    let c2 := if c = '\n' then 1 else colNo + 1
    if c = commentChar then (l2, c2, rest) else blockScan l2 c2 rest

/-- `lineNo++` followed by `colNo = 0` (run after a consumed newline). -/
def advanceLine (st : LexState) : LexState :=
  { st with lineNo := st.lineNo + 1, colNo := 0 }

/-- `inStringLiteral = !inStringLiteral` (the quote rune toggles the mode). -/
def toggleString (st : LexState) : LexState :=
  { st with inStringLiteral := !st.inStringLiteral }

/-- One iteration of the main scan loop of `Tokenize` (everything inside the
`switch` on the rune just read).  Returns the new state and the remaining
input; `UnreadRune` is modelled by pushing the peeked rune back onto the
returned input, and an EOF hit by an inner `ReadRune` (which in Go breaks
out of the `switch`) leaves the state unchanged with no input left. -/
def dispatch (st : LexState) (char : Char) (rest : List Char) : LexState × List Char :=
  if char = quoteChar then
    if st.inStringLiteral then
      (toggleString (commit st { kind := .StringLiteral, str := String.mk st.strbuf, num := 0,
                                 line := st.strbufStartLine, col := st.strbufStartCol }), rest)
    else
      (toggleString { st with strbuf := ([] : List Char), strbufStartLine := st.lineNo,
                              strbufStartCol := st.colNo }, rest)
  else if st.inStringLiteral then
    if char = '\n' then
      (advanceLine { st with strbuf := st.strbuf ++ ['\n'] }, rest)
    else if char = '\\' then
      match rest with
      | [] => (st, [])
      | c :: rest2 => ({ st with strbuf := st.strbuf ++ [c], colNo := st.colNo + 1 }, rest2)
    else ({ st with strbuf := st.strbuf ++ [char] }, rest)
  else if char = commentChar then
    match rest with
    | [] => (st, [])
    | n :: rest2 =>
      if n = commentChar then
        (advanceLine (ensureSeparator st), dropThroughNewline rest2)
      else
        let r := blockScan st.lineNo st.colNo rest2
        ({ st with lineNo := r.1, colNo := r.2.1 }, r.2.2)
  else if char = '\n' then
    (advanceLine (ensureSeparator st), rest)
  else if isSpace char then (commitClear st, rest)
  else if char = '_' then (commitChar st .EmptyIdentifier, rest)
  else if char = '~' then (commitChar st .NegationOp, rest)
  else if char = '+' then (commitChar st .AddOp, rest)
  else if char = '*' then (commitChar st .MultiplyOp, rest)
  else if char = '/' then (commitChar st .DivideOp, rest)
  else if char = '%' then (commitChar st .ModulusOp, rest)
  else if char = '&' then (commitChar st .LogicalAndOp, rest)
  else if char = '|' then (commitChar st .LogicalOrOp, rest)
  else if char = '^' then (commitChar st .LogicalXorOp, rest)
  else if char = '<' then (commitChar st .LessThanOp, rest)
  else if char = '>' then (commitChar st .GreaterThanOp, rest)
  else if char = ',' then (commitChar st .Separator, rest)
  else if char = '.' then
    if st.buf.any (fun d => !isDigit d) then (commitChar st .AccessorOp, rest)
    else if st.buf = [] then (commitChar st .AccessorOp, rest)
    else ({ st with buf := st.buf ++ ['.'] }, rest)
  else if char = ':' then
    match rest with
    | [] => (st, [])
    | n :: rest2 =>
      let st1 := { st with colNo := st.colNo + 1 }
      if n = '=' then (commitChar st1 .DefineOp, rest2)
      else if n = ':' then (commitChar st1 .MatchColon, rest2)
      else (commitChar (ensureSeparator st1) .KeyValueSeparator, n :: rest2)
  else if char = '=' then
    match rest with
    | [] => (st, [])
    | n :: rest2 =>
      let st1 := { st with colNo := st.colNo + 1 }
      if n = '>' then (commitChar st1 .FunctionArrow, rest2)
      else (commitChar st1 .EqualOp, n :: rest2)
  else if char = '-' then
    match rest with
    | [] => (st, [])
    | n :: rest2 =>
      let st1 := { st with colNo := st.colNo + 1 }
      if n = '>' then (commitChar st1 .CaseArrow, rest2)
      else (commitChar st1 .SubtractOp, n :: rest2)
  else if char = '(' then (commitChar st .LeftParen, rest)
  else if char = ')' then (commitChar (ensureSeparator st) .RightParen, rest)
  else if char = '[' then (commitChar st .LeftBracket, rest)
  else if char = ']' then (commitChar (ensureSeparator st) .RightBracket, rest)
  else if char = Char.ofNat 123 then (commitChar st .LeftBrace, rest)
  else if char = Char.ofNat 125 then (commitChar (ensureSeparator st) .RightBrace, rest)
  else ({ st with buf := st.buf ++ [char] }, rest)

/-- The unconditional `colNo++` at the end of each loop iteration. -/
def bump (st : LexState) : LexState := { st with colNo := st.colNo + 1 }

/-- The main scan loop, fuel-indexed.  Each iteration consumes at least the
rune it read, so fuel equal to the input length never runs out. -/
def loopF : Nat → LexState → List Char → LexState
  | 0, st, _ => st
  | _ + 1, st, [] => st
  | fuel + 1, st, char :: rest =>
    let p := dispatch st char rest
    loopF fuel (bump p.1) p.2

/-- The state at the top of `Tokenize`: empty accumulators, `lastKind`
initialised to `Separator`, position `(1, 1)`. -/
def initState (fatalError : Bool) : LexState :=
  { buf := [], strbuf := [], strbufStartLine := 0, strbufStartCol := 0,
    lastKind := .Separator, lineNo := 1, colNo := 1, inStringLiteral := false,
    toks := [], errs := [], fatalError := fatalError }

/-- Whole-input scan: the shebang check (`Peek(2) == "#!"` discards through
the first newline and increments `lineNo`), the main loop, and the final
`ensureSeparator()` flush. -/
def tokenizeSt (input : List Char) (fatalError : Bool) : LexState :=
  let st0 := initState fatalError
  if input.take 2 = ['#', '!'] then
    ensureSeparator (loopF input.length { st0 with lineNo := 2 } (dropThroughNewline input))
  else
    ensureSeparator (loopF input.length st0 input)

/-- `Tokenize`, observed through the token channel.  `debugLexer` only
mirrors tokens to the debug log in Go and has no effect on the stream. -/
def Tokenize (input : String) (fatalError : Bool) (debugLexer : Bool) : List Tok :=
  (tokenizeSt input.data fatalError).toks

/-- `Tokenize`, observed through the diagnostic sink. -/
def TokenizeErrs (input : String) (fatalError : Bool) : List LoggedErr :=
  (tokenizeSt input.data fatalError).errs

/-- Kind/str/num projection of a token stream (positions disregarded). -/
def kindStrNum (ts : List Tok) : List (Kind × String × Rat) :=
  ts.map (fun t => (t.kind, t.str, t.num))

/-! ## Claim-side predicates -/

/-- Adjacent tokens are not both `Separator`. -/
def sepFree (a b : Tok) : Prop := ¬(a.kind = Kind.Separator ∧ b.kind = Kind.Separator)

instance (a b : Tok) : Decidable (sepFree a b) :=
  inferInstanceAs (Decidable (¬(a.kind = Kind.Separator ∧ b.kind = Kind.Separator)))

/-- No two consecutive `Separator` tokens anywhere in the stream. -/
def noConsecutiveSeparators (ts : List Tok) : Prop := List.Chain' sepFree ts

/-- Executable adjacent-pair check (kernel-computable `List.Chain'`). -/
def chainB {α : Type} (p : α → α → Bool) : List α → Bool
  | [] => true
  | [_] => true
  | a :: b :: rest => p a b && chainB p (b :: rest)

theorem chainB_iff {α : Type} (p : α → α → Bool) (R : α → α → Prop)
    (hp : ∀ a b, p a b = true ↔ R a b) :
    ∀ ts : List α, chainB p ts = true ↔ List.Chain' R ts
  | [] => by simp [chainB]
  | [a] => by simp [chainB]
  | a :: b :: rest => by
    rw [List.chain'_cons, show chainB p (a :: b :: rest) = (p a b && chainB p (b :: rest)) from rfl,
      Bool.and_eq_true, chainB_iff p R hp (b :: rest), hp a b]

instance (ts : List Tok) : Decidable (noConsecutiveSeparators ts) :=
  decidable_of_iff (chainB (fun a b => decide (sepFree a b)) ts = true)
    (chainB_iff _ sepFree (fun _ _ => decide_eq_true_iff) ts)

/-- The 1-based `(line, col)` position of every rune of the input, counted the
way the lexer counts: a newline occupies the column after the last rune of its
line, and the next rune starts the next line at column 1. -/
def runePositionsAux (line col : Int) : List Char → List (Int × Int)
  | [] => []
  | c :: rest =>
    (line, col) ::
      (if c = '\n' then runePositionsAux (line + 1) 1 rest
       else runePositionsAux line (col + 1) rest)

/-- Positions of all runes of an input, starting at `(1, 1)`. -/
def runePositions (input : List Char) : List (Int × Int) := runePositionsAux 1 1 input

/-- Nondecreasing lexicographic `(line, col)` order between adjacent tokens. -/
def posLe (a b : Tok) : Prop := a.line < b.line ∨ (a.line = b.line ∧ a.col ≤ b.col)

instance (a b : Tok) : Decidable (posLe a b) :=
  inferInstanceAs (Decidable (a.line < b.line ∨ (a.line = b.line ∧ a.col ≤ b.col)))

/-- The position property asserted by the spec: every emitted token's
`(line, col)` points at an actual rune of the input, and the stream is in
nondecreasing `(line, col)` order. -/
def positionsClaim (input : String) (fatal : Bool) : Prop :=
  (∀ t ∈ Tokenize input fatal false, (t.line, t.col) ∈ runePositions input.data) ∧
    List.Chain' posLe (Tokenize input fatal false)

instance (input : String) (fatal : Bool) : Decidable (positionsClaim input fatal) :=
  @instDecidableAnd _ _
    (inferInstanceAs (Decidable (∀ t ∈ Tokenize input fatal false,
      (t.line, t.col) ∈ runePositions input.data)))
    (decidable_of_iff (chainB (fun a b => decide (posLe a b))
        (Tokenize input fatal false) = true)
      (chainB_iff _ posLe (fun _ _ => decide_eq_true_iff) _))

/-! ## Basic facts about the commit primitives -/

theorem commitClear_of_empty (st : LexState) (h : st.buf = []) : commitClear st = st := by
  unfold commitClear; rw [h]

theorem commitClear_buf (st : LexState) : (commitClear st).buf = [] := by
  unfold commitClear
  cases h : st.buf with
  | nil => exact h
  | cons c cs =>
    simp only []
    split_ifs <;> first
      | rfl
      | (split <;> rfl)

theorem commitClear_lineNo (st : LexState) : (commitClear st).lineNo = st.lineNo := by
  unfold commitClear
  cases h : st.buf with
  | nil => rfl
  | cons c cs =>
    simp only []
    split_ifs <;> first
      | rfl
      | (split <;> rfl)

theorem commitClear_colNo (st : LexState) : (commitClear st).colNo = st.colNo := by
  unfold commitClear
  cases h : st.buf with
  | nil => rfl
  | cons c cs =>
    simp only []
    split_ifs <;> first
      | rfl
      | (split <;> rfl)

theorem commitClear_inString (st : LexState) :
    (commitClear st).inStringLiteral = st.inStringLiteral := by
  unfold commitClear
  cases h : st.buf with
  | nil => rfl
  | cons c cs =>
    simp only []
    split_ifs <;> first
      | rfl
      | (split <;> rfl)

/-! ## The separator invariant: `lastKind` tracks the last emitted token, and
the stream stays free of adjacent `Separator` pairs as long as every
synthesized `Separator` is guarded by `ensureSeparator` (the `','` rune,
whose `commitChar(Separator)` is unguarded, is the one exception). -/

/-- The stream has no adjacent `Separator` pair, and its last token (if any)
has kind `k`. -/
def sepOk (ts : List Tok) (k : Kind) : Prop :=
  noConsecutiveSeparators ts ∧ ∀ t, ts.getLast? = some t → t.kind = k

theorem sepOk_append {ts : List Tok} {k : Kind} (h : sepOk ts k) (tok : Tok)
    (hk : tok.kind = Kind.Separator → k ≠ Kind.Separator) :
    sepOk (ts ++ [tok]) tok.kind := by
  constructor
  · rw [noConsecutiveSeparators, List.chain'_append]
    refine ⟨h.1, List.chain'_singleton tok, ?_⟩
    intro x hx y hy
    simp only [List.head?_cons, Option.mem_def, Option.some.injEq] at hy
    subst hy
    intro hcon
    exact hk hcon.2 (h.2 x (by simpa using hx) ▸ hcon.1)
  · intro t ht
    rw [List.getLast?_concat] at ht
    cases ht
    rfl

/-- The state-level separator invariant. -/
def sepInv (st : LexState) : Prop := sepOk st.toks st.lastKind

theorem sepInv_simpleCommit {st : LexState} {tok : Tok} (h : sepInv st)
    (hk : tok.kind = Kind.Separator → st.lastKind ≠ Kind.Separator) :
    sepInv (simpleCommit st tok) :=
  sepOk_append h tok hk

theorem sepInv_commitClear {st : LexState} (h : sepInv st) : sepInv (commitClear st) := by
  unfold commitClear
  cases hb : st.buf with
  | nil => exact h
  | cons c cs =>
    simp only []
    split_ifs with h1 h2 h3
    · exact sepInv_simpleCommit h (by intro hk; cases hk)
    · exact sepInv_simpleCommit h (by intro hk; cases hk)
    · split
      · exact sepInv_simpleCommit h (by intro hk; cases hk)
      · exact @sepInv_simpleCommit { st with buf := [], errs := _ } _ h
          (by intro hk; cases hk)
    · exact sepInv_simpleCommit h (by intro hk; cases hk)

theorem sepInv_commit {st : LexState} {tok : Tok} (h : sepInv st)
    (hk : tok.kind ≠ Kind.Separator) : sepInv (commit st tok) :=
  sepInv_simpleCommit (sepInv_commitClear h) (fun h' => absurd h' hk)

theorem sepInv_commitChar {st : LexState} {k : Kind} (h : sepInv st)
    (hk : k ≠ Kind.Separator) : sepInv (commitChar st k) :=
  sepInv_commit h hk

theorem sepInv_ensureSeparator {st : LexState} (h : sepInv st) :
    sepInv (ensureSeparator st) := by
  unfold ensureSeparator
  set st1 := commitClear st with hst1
  simp only []
  split_ifs with hmem
  · exact sepInv_commitClear h
  · have h1 : sepInv st1 := sepInv_commitClear h
    show sepInv (commitChar st1 .Separator)
    unfold commitChar commit
    rw [commitClear_of_empty st1 (hst1 ▸ commitClear_buf st)]
    refine sepInv_simpleCommit h1 (fun _ hsep => hmem ?_)
    rw [hsep]
    decide


/-! ## A single case analysis of `dispatch`, reused by every invariant -/

theorem dropThroughNewline_suffix (l : List Char) : dropThroughNewline l <:+ l := by
  induction l with
  | nil => simp [dropThroughNewline]
  | cons c rest ih =>
    unfold dropThroughNewline
    split_ifs with h
    · exact List.suffix_cons c rest
    · exact ih.trans (List.suffix_cons c rest)

theorem blockScan_suffix (l c : Int) (input : List Char) : (blockScan l c input).2.2 <:+ input := by
  induction input generalizing l c with
  | nil => simp [blockScan]
  | cons x rest ih =>
    unfold blockScan
    simp only []
    split_ifs <;> first
      | exact List.suffix_cons x rest
      | exact (ih _ _).trans (List.suffix_cons x rest)

theorem dispatch_preserve {P : LexState → Prop} (st : LexState) (char : Char) (rest : List Char)
    (hP : P st)
    (hCC : ∀ s, P s → P (commitClear s))
    (hES : ∀ s, P s → P (ensureSeparator s))
    (hAL : ∀ s, P s → P (advanceLine s))
    (hK : ∀ s k, k ≠ Kind.Separator → P s → P (commitChar s k))
    (hComma : char = ',' → ∀ s, P s → P (commitChar s Kind.Separator))
    (hStr : ∀ s, s.inStringLiteral = true → P s →
      P (toggleString (commit s { kind := Kind.StringLiteral, str := String.mk s.strbuf,
                                  num := 0, line := s.strbufStartLine, col := s.strbufStartCol })))
    (hEnter : ∀ s, s.inStringLiteral = false → P s →
      P (toggleString { s with strbuf := ([] : List Char), strbufStartLine := s.lineNo,
                               strbufStartCol := s.colNo }))
    (hNl : ∀ s, P s → P (advanceLine { s with strbuf := s.strbuf ++ ['\n'] }))
    (hEsc : ∀ s c, P s → P { s with strbuf := s.strbuf ++ [c], colNo := s.colNo + 1 })
    (hStrb : ∀ s c, P s → P { s with strbuf := s.strbuf ++ [c] })
    (hBuf : ∀ s c, P s → P { s with buf := s.buf ++ [c] })
    (hCol : ∀ s, P s → P { s with colNo := s.colNo + 1 })
    (hBlock : ∀ s input, P s →
      P { s with lineNo := (blockScan s.lineNo s.colNo input).1,
                 colNo := (blockScan s.lineNo s.colNo input).2.1 }) :
    P (dispatch st char rest).1 ∧ (dispatch st char rest).2 <:+ char :: rest := by
  by_cases h1 : char = quoteChar
  · by_cases h2 : st.inStringLiteral = true
    · simp only [dispatch, if_pos h1, if_pos h2]
      exact ⟨hStr st h2 hP,
        List.suffix_cons char rest⟩
    · simp only [dispatch, if_pos h1, if_neg h2]
      exact ⟨hEnter st (by simpa using h2) hP,
        List.suffix_cons char rest⟩
  by_cases h2 : st.inStringLiteral = true
  · by_cases h3 : char = '\n'
    · simp only [dispatch, if_neg h1, if_pos h2, if_pos h3]
      exact ⟨hNl st hP,
        List.suffix_cons char rest⟩
    by_cases h4 : char = '\\'
    · rcases rest with _ | ⟨c, rest2⟩
      · simp only [dispatch, if_neg h1, if_pos h2, if_neg h3, if_pos h4]
        exact ⟨hP,
          List.nil_suffix⟩
      · simp only [dispatch, if_neg h1, if_pos h2, if_neg h3, if_pos h4]
        exact ⟨hEsc st c hP,
          (List.suffix_cons c rest2).trans (List.suffix_cons char (c :: rest2))⟩
    · simp only [dispatch, if_neg h1, if_pos h2, if_neg h3, if_neg h4]
      exact ⟨hStrb st char hP,
        List.suffix_cons char rest⟩
  by_cases h3 : char = commentChar
  · rcases rest with _ | ⟨n, rest2⟩
    · simp only [dispatch, if_neg h1, if_neg h2, if_pos h3]
      exact ⟨hP,
        List.nil_suffix⟩
    · by_cases h6 : n = commentChar
      · simp only [dispatch, if_neg h1, if_neg h2, if_pos h3, if_pos h6]
        exact ⟨hAL _ (hES _ hP),
          ((dropThroughNewline_suffix rest2).trans (List.suffix_cons n rest2)).trans (List.suffix_cons char (n :: rest2))⟩
      · simp only [dispatch, if_neg h1, if_neg h2, if_pos h3, if_neg h6]
        exact ⟨hBlock st rest2 hP,
          ((blockScan_suffix st.lineNo st.colNo rest2).trans (List.suffix_cons n rest2)).trans (List.suffix_cons char (n :: rest2))⟩
  by_cases h4 : char = '\n'
  · simp only [dispatch, if_neg h1, if_neg h2, if_neg h3, if_pos h4]
    exact ⟨hAL _ (hES _ hP),
      List.suffix_cons char rest⟩
  by_cases h5 : isSpace char = true
  · simp only [dispatch, if_neg h1, if_neg h2, if_neg h3, if_neg h4, if_pos h5]
    exact ⟨hCC st hP,
      List.suffix_cons char rest⟩
  by_cases h6 : char = '_'
  · simp only [dispatch, if_neg h1, if_neg h2, if_neg h3, if_neg h4, if_neg h5, if_pos h6]
    exact ⟨hK st _ (by decide) hP,
      List.suffix_cons char rest⟩
  by_cases h7 : char = '~'
  · simp only [dispatch, if_neg h1, if_neg h2, if_neg h3, if_neg h4, if_neg h5, if_neg h6,
      if_pos h7]
    exact ⟨hK st _ (by decide) hP,
      List.suffix_cons char rest⟩
  by_cases h8 : char = '+'
  · simp only [dispatch, if_neg h1, if_neg h2, if_neg h3, if_neg h4, if_neg h5, if_neg h6,
      if_neg h7, if_pos h8]
    exact ⟨hK st _ (by decide) hP,
      List.suffix_cons char rest⟩
  by_cases h9 : char = '*'
  · simp only [dispatch, if_neg h1, if_neg h2, if_neg h3, if_neg h4, if_neg h5, if_neg h6,
      if_neg h7, if_neg h8, if_pos h9]
    exact ⟨hK st _ (by decide) hP,
      List.suffix_cons char rest⟩
  by_cases h10 : char = '/'
  · simp only [dispatch, if_neg h1, if_neg h2, if_neg h3, if_neg h4, if_neg h5, if_neg h6,
      if_neg h7, if_neg h8, if_neg h9, if_pos h10]
    exact ⟨hK st _ (by decide) hP,
      List.suffix_cons char rest⟩
  by_cases h11 : char = '%'
  · simp only [dispatch, if_neg h1, if_neg h2, if_neg h3, if_neg h4, if_neg h5, if_neg h6,
      if_neg h7, if_neg h8, if_neg h9, if_neg h10, if_pos h11]
    exact ⟨hK st _ (by decide) hP,
      List.suffix_cons char rest⟩
  by_cases h12 : char = '&'
  · simp only [dispatch, if_neg h1, if_neg h2, if_neg h3, if_neg h4, if_neg h5, if_neg h6,
      if_neg h7, if_neg h8, if_neg h9, if_neg h10, if_neg h11, if_pos h12]
    exact ⟨hK st _ (by decide) hP,
      List.suffix_cons char rest⟩
  by_cases h13 : char = '|'
  · simp only [dispatch, if_neg h1, if_neg h2, if_neg h3, if_neg h4, if_neg h5, if_neg h6,
      if_neg h7, if_neg h8, if_neg h9, if_neg h10, if_neg h11, if_neg h12, if_pos h13]
    exact ⟨hK st _ (by decide) hP,
      List.suffix_cons char rest⟩
  by_cases h14 : char = '^'
  · simp only [dispatch, if_neg h1, if_neg h2, if_neg h3, if_neg h4, if_neg h5, if_neg h6,
      if_neg h7, if_neg h8, if_neg h9, if_neg h10, if_neg h11, if_neg h12, if_neg h13,
      if_pos h14]
    exact ⟨hK st _ (by decide) hP,
      List.suffix_cons char rest⟩
  by_cases h15 : char = '<'
  · simp only [dispatch, if_neg h1, if_neg h2, if_neg h3, if_neg h4, if_neg h5, if_neg h6,
      if_neg h7, if_neg h8, if_neg h9, if_neg h10, if_neg h11, if_neg h12, if_neg h13,
      if_neg h14, if_pos h15]
    exact ⟨hK st _ (by decide) hP,
      List.suffix_cons char rest⟩
  by_cases h16 : char = '>'
  · simp only [dispatch, if_neg h1, if_neg h2, if_neg h3, if_neg h4, if_neg h5, if_neg h6,
      if_neg h7, if_neg h8, if_neg h9, if_neg h10, if_neg h11, if_neg h12, if_neg h13,
      if_neg h14, if_neg h15, if_pos h16]
    exact ⟨hK st _ (by decide) hP,
      List.suffix_cons char rest⟩
  by_cases h17 : char = ','
  · simp only [dispatch, if_neg h1, if_neg h2, if_neg h3, if_neg h4, if_neg h5, if_neg h6,
      if_neg h7, if_neg h8, if_neg h9, if_neg h10, if_neg h11, if_neg h12, if_neg h13,
      if_neg h14, if_neg h15, if_neg h16, if_pos h17]
    exact ⟨hComma h17 st hP,
      List.suffix_cons char rest⟩
  by_cases h18 : char = '.'
  · by_cases ha : st.buf.any (fun d => !isDigit d) = true
    · simp only [dispatch, if_neg h1, if_neg h2, if_neg h3, if_neg h4, if_neg h5, if_neg h6,
        if_neg h7, if_neg h8, if_neg h9, if_neg h10, if_neg h11, if_neg h12, if_neg h13,
        if_neg h14, if_neg h15, if_neg h16, if_neg h17, if_pos h18, if_pos ha]
      exact ⟨hK st _ (by decide) hP,
        List.suffix_cons char rest⟩
    · by_cases hb : st.buf = []
      · simp only [dispatch, if_neg h1, if_neg h2, if_neg h3, if_neg h4, if_neg h5, if_neg h6,
          if_neg h7, if_neg h8, if_neg h9, if_neg h10, if_neg h11, if_neg h12, if_neg h13,
          if_neg h14, if_neg h15, if_neg h16, if_neg h17, if_pos h18, if_neg ha, if_pos hb]
        exact ⟨hK st _ (by decide) hP,
          List.suffix_cons char rest⟩
      · simp only [dispatch, if_neg h1, if_neg h2, if_neg h3, if_neg h4, if_neg h5, if_neg h6,
          if_neg h7, if_neg h8, if_neg h9, if_neg h10, if_neg h11, if_neg h12, if_neg h13,
          if_neg h14, if_neg h15, if_neg h16, if_neg h17, if_pos h18, if_neg ha, if_neg hb]
        exact ⟨hBuf st '.' hP,
          List.suffix_cons char rest⟩
  by_cases h19 : char = ':'
  · rcases rest with _ | ⟨n, rest2⟩
    · simp only [dispatch, if_neg h1, if_neg h2, if_neg h3, if_neg h4, if_neg h5, if_neg h6,
        if_neg h7, if_neg h8, if_neg h9, if_neg h10, if_neg h11, if_neg h12, if_neg h13,
        if_neg h14, if_neg h15, if_neg h16, if_neg h17, if_neg h18, if_pos h19]
      exact ⟨hP,
        List.nil_suffix⟩
    · by_cases hn1 : n = '='
      · simp only [dispatch, if_neg h1, if_neg h2, if_neg h3, if_neg h4, if_neg h5, if_neg h6,
          if_neg h7, if_neg h8, if_neg h9, if_neg h10, if_neg h11, if_neg h12, if_neg h13,
          if_neg h14, if_neg h15, if_neg h16, if_neg h17, if_neg h18, if_pos h19, if_pos hn1]
        exact ⟨hK _ _ (by decide) (hCol st hP),
          (List.suffix_cons n rest2).trans (List.suffix_cons char (n :: rest2))⟩
      · by_cases hn2 : n = ':'
        · simp only [dispatch, if_neg h1, if_neg h2, if_neg h3, if_neg h4, if_neg h5, if_neg h6,
            if_neg h7, if_neg h8, if_neg h9, if_neg h10, if_neg h11, if_neg h12, if_neg h13,
            if_neg h14, if_neg h15, if_neg h16, if_neg h17, if_neg h18, if_pos h19, if_neg hn1,
            if_pos hn2]
          exact ⟨hK _ _ (by decide) (hCol st hP),
            (List.suffix_cons n rest2).trans (List.suffix_cons char (n :: rest2))⟩
        · simp only [dispatch, if_neg h1, if_neg h2, if_neg h3, if_neg h4, if_neg h5, if_neg h6,
            if_neg h7, if_neg h8, if_neg h9, if_neg h10, if_neg h11, if_neg h12, if_neg h13,
            if_neg h14, if_neg h15, if_neg h16, if_neg h17, if_neg h18, if_pos h19, if_neg hn1,
            if_neg hn2]
          exact ⟨hK _ _ (by decide) (hES _ (hCol st hP)),
            List.suffix_cons char (n :: rest2)⟩
  by_cases h20 : char = '='
  · rcases rest with _ | ⟨n, rest2⟩
    · simp only [dispatch, if_neg h1, if_neg h2, if_neg h3, if_neg h4, if_neg h5, if_neg h6,
        if_neg h7, if_neg h8, if_neg h9, if_neg h10, if_neg h11, if_neg h12, if_neg h13,
        if_neg h14, if_neg h15, if_neg h16, if_neg h17, if_neg h18, if_neg h19, if_pos h20]
      exact ⟨hP,
        List.nil_suffix⟩
    · by_cases hn1 : n = '>'
      · simp only [dispatch, if_neg h1, if_neg h2, if_neg h3, if_neg h4, if_neg h5, if_neg h6,
          if_neg h7, if_neg h8, if_neg h9, if_neg h10, if_neg h11, if_neg h12, if_neg h13,
          if_neg h14, if_neg h15, if_neg h16, if_neg h17, if_neg h18, if_neg h19, if_pos h20,
          if_pos hn1]
        exact ⟨hK _ _ (by decide) (hCol st hP),
          (List.suffix_cons n rest2).trans (List.suffix_cons char (n :: rest2))⟩
      · simp only [dispatch, if_neg h1, if_neg h2, if_neg h3, if_neg h4, if_neg h5, if_neg h6,
          if_neg h7, if_neg h8, if_neg h9, if_neg h10, if_neg h11, if_neg h12, if_neg h13,
          if_neg h14, if_neg h15, if_neg h16, if_neg h17, if_neg h18, if_neg h19, if_pos h20,
          if_neg hn1]
        exact ⟨hK _ _ (by decide) (hCol st hP),
          List.suffix_cons char (n :: rest2)⟩
  by_cases h21 : char = '-'
  · rcases rest with _ | ⟨n, rest2⟩
    · simp only [dispatch, if_neg h1, if_neg h2, if_neg h3, if_neg h4, if_neg h5, if_neg h6,
        if_neg h7, if_neg h8, if_neg h9, if_neg h10, if_neg h11, if_neg h12, if_neg h13,
        if_neg h14, if_neg h15, if_neg h16, if_neg h17, if_neg h18, if_neg h19, if_neg h20,
        if_pos h21]
      exact ⟨hP,
        List.nil_suffix⟩
    · by_cases hn1 : n = '>'
      · simp only [dispatch, if_neg h1, if_neg h2, if_neg h3, if_neg h4, if_neg h5, if_neg h6,
          if_neg h7, if_neg h8, if_neg h9, if_neg h10, if_neg h11, if_neg h12, if_neg h13,
          if_neg h14, if_neg h15, if_neg h16, if_neg h17, if_neg h18, if_neg h19, if_neg h20,
          if_pos h21, if_pos hn1]
        exact ⟨hK _ _ (by decide) (hCol st hP),
          (List.suffix_cons n rest2).trans (List.suffix_cons char (n :: rest2))⟩
      · simp only [dispatch, if_neg h1, if_neg h2, if_neg h3, if_neg h4, if_neg h5, if_neg h6,
          if_neg h7, if_neg h8, if_neg h9, if_neg h10, if_neg h11, if_neg h12, if_neg h13,
          if_neg h14, if_neg h15, if_neg h16, if_neg h17, if_neg h18, if_neg h19, if_neg h20,
          if_pos h21, if_neg hn1]
        exact ⟨hK _ _ (by decide) (hCol st hP),
          List.suffix_cons char (n :: rest2)⟩
  by_cases h22 : char = '('
  · simp only [dispatch, if_neg h1, if_neg h2, if_neg h3, if_neg h4, if_neg h5, if_neg h6,
      if_neg h7, if_neg h8, if_neg h9, if_neg h10, if_neg h11, if_neg h12, if_neg h13,
      if_neg h14, if_neg h15, if_neg h16, if_neg h17, if_neg h18, if_neg h19, if_neg h20,
      if_neg h21, if_pos h22]
    exact ⟨hK st _ (by decide) hP,
      List.suffix_cons char rest⟩
  by_cases h23 : char = ')'
  · simp only [dispatch, if_neg h1, if_neg h2, if_neg h3, if_neg h4, if_neg h5, if_neg h6,
      if_neg h7, if_neg h8, if_neg h9, if_neg h10, if_neg h11, if_neg h12, if_neg h13,
      if_neg h14, if_neg h15, if_neg h16, if_neg h17, if_neg h18, if_neg h19, if_neg h20,
      if_neg h21, if_neg h22, if_pos h23]
    exact ⟨hK _ _ (by decide) (hES st hP),
      List.suffix_cons char rest⟩
  by_cases h24 : char = '['
  · simp only [dispatch, if_neg h1, if_neg h2, if_neg h3, if_neg h4, if_neg h5, if_neg h6,
      if_neg h7, if_neg h8, if_neg h9, if_neg h10, if_neg h11, if_neg h12, if_neg h13,
      if_neg h14, if_neg h15, if_neg h16, if_neg h17, if_neg h18, if_neg h19, if_neg h20,
      if_neg h21, if_neg h22, if_neg h23, if_pos h24]
    exact ⟨hK st _ (by decide) hP,
      List.suffix_cons char rest⟩
  by_cases h25 : char = ']'
  · simp only [dispatch, if_neg h1, if_neg h2, if_neg h3, if_neg h4, if_neg h5, if_neg h6,
      if_neg h7, if_neg h8, if_neg h9, if_neg h10, if_neg h11, if_neg h12, if_neg h13,
      if_neg h14, if_neg h15, if_neg h16, if_neg h17, if_neg h18, if_neg h19, if_neg h20,
      if_neg h21, if_neg h22, if_neg h23, if_neg h24, if_pos h25]
    exact ⟨hK _ _ (by decide) (hES st hP),
      List.suffix_cons char rest⟩
  by_cases h26 : char = Char.ofNat 123
  · simp only [dispatch, if_neg h1, if_neg h2, if_neg h3, if_neg h4, if_neg h5, if_neg h6,
      if_neg h7, if_neg h8, if_neg h9, if_neg h10, if_neg h11, if_neg h12, if_neg h13,
      if_neg h14, if_neg h15, if_neg h16, if_neg h17, if_neg h18, if_neg h19, if_neg h20,
      if_neg h21, if_neg h22, if_neg h23, if_neg h24, if_neg h25, if_pos h26]
    exact ⟨hK st _ (by decide) hP,
      List.suffix_cons char rest⟩
  by_cases h27 : char = Char.ofNat 125
  · simp only [dispatch, if_neg h1, if_neg h2, if_neg h3, if_neg h4, if_neg h5, if_neg h6,
      if_neg h7, if_neg h8, if_neg h9, if_neg h10, if_neg h11, if_neg h12, if_neg h13,
      if_neg h14, if_neg h15, if_neg h16, if_neg h17, if_neg h18, if_neg h19, if_neg h20,
      if_neg h21, if_neg h22, if_neg h23, if_neg h24, if_neg h25, if_neg h26, if_pos h27]
    exact ⟨hK _ _ (by decide) (hES st hP),
      List.suffix_cons char rest⟩
  · simp only [dispatch, if_neg h1, if_neg h2, if_neg h3, if_neg h4, if_neg h5, if_neg h6,
      if_neg h7, if_neg h8, if_neg h9, if_neg h10, if_neg h11, if_neg h12, if_neg h13,
      if_neg h14, if_neg h15, if_neg h16, if_neg h17, if_neg h18, if_neg h19, if_neg h20,
      if_neg h21, if_neg h22, if_neg h23, if_neg h24, if_neg h25, if_neg h26, if_neg h27]
    exact ⟨hBuf st char hP,
      List.suffix_cons char rest⟩


/-! ## Loop-level preservation -/

/-- Generic preservation through the fuel-indexed loop. -/
theorem loopF_preserve {P : LexState → Prop} (C : Char → Prop)
    (hd : ∀ st char rest, P st → C char →
      P (bump (dispatch st char rest).1) ∧ (dispatch st char rest).2 <:+ char :: rest) :
    ∀ fuel st input, P st → (∀ c ∈ input, C c) → P (loopF fuel st input) := by
  intro fuel
  induction fuel with
  | zero => intro st input h _; exact h
  | succ fuel ih =>
    intro st input h hC
    cases input with
    | nil => exact h
    | cons char rest =>
      simp only [loopF]
      have hd1 := hd st char rest h (hC char (List.mem_cons_self char rest))
      exact ih _ _ hd1.1 (fun c hc => hC c (hd1.2.subset hc))

theorem sepInv_bump {st : LexState} (h : sepInv st) : sepInv (bump st) := h

theorem sepInv_loopF {fuel : Nat} (st : LexState) (input : List Char)
    (h : sepInv st) (hC : ∀ c ∈ input, c ≠ ',') : sepInv (loopF fuel st input) := by
  refine loopF_preserve (fun c => c ≠ ',') ?_ fuel st input h hC
  intro s char rest hs hchar
  have H := dispatch_preserve s char rest hs
    (fun s h => sepInv_commitClear h)
    (fun s h => sepInv_ensureSeparator h)
    (fun s h => h)
    (fun s k hk h => sepInv_commitChar h hk)
    (fun hc => absurd hc hchar)
    (fun s _ h => sepInv_commit h (fun hk => Kind.noConfusion hk))
    (fun s _ h => h)
    (fun s h => h)
    (fun s c h => h)
    (fun s c h => h)
    (fun s c h => h)
    (fun s h => h)
    (fun s input h => h)
  exact ⟨sepInv_bump H.1, H.2⟩

/-- The diagnostics invariant: the `fatalError` flag captured at entry never
changes, and every recorded diagnostic is a number-parse syntax error logged
on the path selected by that flag. -/
def errInv (fatal : Bool) (st : LexState) : Prop :=
  st.fatalError = fatal ∧
    ∀ e ∈ st.errs, e.reason = ErrReason.syntaxError ∧ e.safe = !fatal

theorem errInv_commitClear {fatal : Bool} {s : LexState} (h : errInv fatal s) :
    errInv fatal (commitClear s) := by
  unfold commitClear
  cases hb : s.buf with
  | nil => exact h
  | cons c cs =>
    simp only []
    split_ifs with h1 h2 h3
    · exact h
    · exact h
    · split
      · exact h
      · refine ⟨h.1, ?_⟩
        intro e he
        rcases List.mem_append.mp he with h4 | h4
        · exact h.2 e h4
        · simp only [List.mem_singleton] at h4
          subst h4
          refine ⟨rfl, ?_⟩
          show (!s.fatalError) = !fatal
          rw [h.1]
    · exact h

theorem errInv_commitChar {fatal : Bool} {s : LexState} {k : Kind} (h : errInv fatal s) :
    errInv fatal (commitChar s k) := errInv_commitClear h

theorem errInv_ensureSeparator {fatal : Bool} {s : LexState} (h : errInv fatal s) :
    errInv fatal (ensureSeparator s) := by
  unfold ensureSeparator
  simp only []
  split_ifs
  · exact errInv_commitClear h
  · exact errInv_commitChar (errInv_commitClear h)

theorem errInv_loopF {fatal : Bool} {fuel : Nat} (st : LexState) (input : List Char)
    (h : errInv fatal st) : errInv fatal (loopF fuel st input) := by
  refine loopF_preserve (fun _ => True) ?_ fuel st input h (fun _ _ => trivial)
  intro s char rest hs _
  have H := dispatch_preserve s char rest hs
    (fun s h => errInv_commitClear h)
    (fun s h => errInv_ensureSeparator h)
    (fun s h => h)
    (fun s k _ h => errInv_commitChar h)
    (fun _ s h => errInv_commitChar h)
    (fun s _ h => errInv_commitClear h)
    (fun s _ h => h)
    (fun s h => h)
    (fun s c h => h)
    (fun s c h => h)
    (fun s c h => h)
    (fun s h => h)
    (fun s input h => h)
  exact ⟨H.1, H.2⟩

/-- Every emitted token's line is between 1 and the current line counter, and
while a string literal is open its recorded start line is in range too. -/
def lineInv (st : LexState) : Prop :=
  1 ≤ st.lineNo ∧
  (st.inStringLiteral = true → 1 ≤ st.strbufStartLine ∧ st.strbufStartLine ≤ st.lineNo) ∧
  ∀ t ∈ st.toks, 1 ≤ t.line ∧ t.line ≤ st.lineNo

theorem lineInv_simpleCommit {s : LexState} {tok : Tok} (h : lineInv s)
    (ht : 1 ≤ tok.line ∧ tok.line ≤ s.lineNo) : lineInv (simpleCommit s tok) := by
  refine ⟨h.1, h.2.1, ?_⟩
  intro t htm
  rcases List.mem_append.mp htm with h4 | h4
  · exact h.2.2 t h4
  · simp only [List.mem_singleton] at h4
    subst h4
    exact ht

theorem lineInv_commitClear {s : LexState} (h : lineInv s) : lineInv (commitClear s) := by
  unfold commitClear
  cases hb : s.buf with
  | nil => exact h
  | cons c cs =>
    simp only []
    split_ifs with h1 h2 h3
    · exact lineInv_simpleCommit h ⟨h.1, le_refl _⟩
    · exact lineInv_simpleCommit h ⟨h.1, le_refl _⟩
    · split
      · exact lineInv_simpleCommit h ⟨h.1, le_refl _⟩
      · exact @lineInv_simpleCommit { s with buf := [], errs := _ } _ h ⟨h.1, le_refl _⟩
    · exact lineInv_simpleCommit h ⟨h.1, le_refl _⟩

theorem lineInv_commitChar {s : LexState} {k : Kind} (h : lineInv s) :
    lineInv (commitChar s k) := by
  refine lineInv_simpleCommit (lineInv_commitClear h) ⟨h.1, ?_⟩
  exact le_of_eq (commitClear_lineNo s).symm

theorem lineInv_ensureSeparator {s : LexState} (h : lineInv s) :
    lineInv (ensureSeparator s) := by
  unfold ensureSeparator
  simp only []
  split_ifs
  · exact lineInv_commitClear h
  · exact lineInv_commitChar (lineInv_commitClear h)

theorem lineInv_advanceLine {s : LexState} (h : lineInv s) : lineInv (advanceLine s) := by
  obtain ⟨h1, h2, h3⟩ := h
  refine ⟨?_, fun hin => ⟨(h2 hin).1, ?_⟩, fun t ht => ⟨(h3 t ht).1, ?_⟩⟩
  · show (1 : Int) ≤ s.lineNo + 1
    omega
  · show s.strbufStartLine ≤ s.lineNo + 1
    have := (h2 hin).2
    omega
  · show t.line ≤ s.lineNo + 1
    have := (h3 t ht).2
    omega

theorem blockScan_line_mono (l c : Int) (input : List Char) :
    l ≤ (blockScan l c input).1 := by
  induction input generalizing l c with
  | nil => simp [blockScan]
  | cons x rest ih =>
    unfold blockScan
    simp only []
    by_cases hn : x = '\n'
    · simp only [if_pos hn]
      by_cases hc : x = commentChar
      · simp only [if_pos hc]
        omega
      · simp only [if_neg hc]
        exact le_trans (by omega) (ih (l + 1) 1)
    · simp only [if_neg hn]
      by_cases hc : x = commentChar
      · simp only [if_pos hc]
        exact le_refl l
      · simp only [if_neg hc]
        exact ih l (c + 1)

theorem lineInv_stringCommit {s : LexState} (hin : s.inStringLiteral = true) (h : lineInv s) :
    lineInv (toggleString (commit s { kind := Kind.StringLiteral, str := String.mk s.strbuf,
                                      num := 0, line := s.strbufStartLine,
                                      col := s.strbufStartCol })) := by
  have hstr : lineInv (commit s { kind := Kind.StringLiteral, str := String.mk s.strbuf,
                                  num := 0, line := s.strbufStartLine,
                                  col := s.strbufStartCol }) := by
    refine lineInv_simpleCommit (lineInv_commitClear h) ⟨(h.2.1 hin).1, ?_⟩
    exact le_trans (h.2.1 hin).2 (le_of_eq (commitClear_lineNo s).symm)
  refine ⟨hstr.1, ?_, hstr.2.2⟩
  intro hin2
  exfalso
  have hx : (!(commitClear s).inStringLiteral) = true := hin2
  rw [commitClear_inString, hin] at hx
  exact absurd hx (by decide)

theorem lineInv_enterString {s : LexState} (h : lineInv s) :
    lineInv (toggleString { s with strbuf := ([] : List Char), strbufStartLine := s.lineNo,
                                   strbufStartCol := s.colNo }) :=
  ⟨h.1, fun _ => ⟨h.1, le_refl _⟩, h.2.2⟩

theorem lineInv_blockAdvance {s : LexState} (input : List Char) (h : lineInv s) :
    lineInv { s with lineNo := (blockScan s.lineNo s.colNo input).1,
                     colNo := (blockScan s.lineNo s.colNo input).2.1 } := by
  obtain ⟨h1, h2, h3⟩ := h
  have hm := blockScan_line_mono s.lineNo s.colNo input
  refine ⟨?_, fun hin => ⟨(h2 hin).1, ?_⟩, fun t ht => ⟨(h3 t ht).1, ?_⟩⟩
  · show (1 : Int) ≤ (blockScan s.lineNo s.colNo input).1
    omega
  · show s.strbufStartLine ≤ (blockScan s.lineNo s.colNo input).1
    have := (h2 hin).2
    omega
  · show t.line ≤ (blockScan s.lineNo s.colNo input).1
    have := (h3 t ht).2
    omega

theorem lineInv_loopF {fuel : Nat} (st : LexState) (input : List Char)
    (h : lineInv st) : lineInv (loopF fuel st input) := by
  refine loopF_preserve (fun _ => True) ?_ fuel st input h (fun _ _ => trivial)
  intro s char rest hs _
  have H := dispatch_preserve s char rest hs
    (fun s h => lineInv_commitClear h)
    (fun s h => lineInv_ensureSeparator h)
    (fun s h => lineInv_advanceLine h)
    (fun s k _ h => lineInv_commitChar h)
    (fun _ s h => lineInv_commitChar h)
    (fun s hin h => lineInv_stringCommit hin h)
    (fun s _ h => lineInv_enterString h)
    (fun s h => lineInv_advanceLine h)
    (fun s c h => h)
    (fun s c h => h)
    (fun s c h => h)
    (fun s h => h)
    (fun s input h => lineInv_blockAdvance input h)
  exact ⟨H.1, H.2⟩


/-! ## The claims -/


theorem sepInv_tokenizeSt (input : List Char) (fatal : Bool)
    (h : ∀ c ∈ input, c ≠ ',') : sepInv (tokenizeSt input fatal) := by
  have hinit : sepInv (initState fatal) := ⟨List.chain'_nil, fun t ht => nomatch ht⟩
  unfold tokenizeSt
  simp only []
  split_ifs with hsheb
  · refine sepInv_ensureSeparator
      (sepInv_loopF { initState fatal with lineNo := 2 } (dropThroughNewline input) hinit ?_)
    exact fun c hc => h c ((dropThroughNewline_suffix input).subset hc)
  · exact sepInv_ensureSeparator (sepInv_loopF (initState fatal) input hinit h)

theorem errInv_tokenizeSt (input : List Char) (fatal : Bool) :
    errInv fatal (tokenizeSt input fatal) := by
  have hinit : errInv fatal (initState fatal) := ⟨rfl, fun e he => nomatch he⟩
  unfold tokenizeSt
  simp only []
  split_ifs with hsheb
  · exact errInv_ensureSeparator
      (errInv_loopF { initState fatal with lineNo := 2 } (dropThroughNewline input) hinit)
  · exact errInv_ensureSeparator (errInv_loopF (initState fatal) input hinit)

theorem lineInv_tokenizeSt (input : List Char) (fatal : Bool) :
    lineInv (tokenizeSt input fatal) := by
  have hinit : lineInv (initState fatal) := by
    refine ⟨le_refl 1, fun hin => ?_, fun t ht => ?_⟩
    · simp [initState] at hin
    · simp [initState] at ht
  have hinit2 : lineInv { initState fatal with lineNo := 2 } := by
    refine ⟨by norm_num, fun hin => ?_, fun t ht => ?_⟩
    · simp [initState] at hin
    · simp [initState] at ht
  unfold tokenizeSt
  simp only []
  split_ifs with hsheb
  · exact lineInv_ensureSeparator
      (lineInv_loopF { initState fatal with lineNo := 2 } (dropThroughNewline input) hinit2)
  · exact lineInv_ensureSeparator (lineInv_loopF (initState fatal) input hinit)

/-- C1 (counterexample): the claimed token stream for `f := (x) => x + 1` is
wrong — the claim (and spec example D) places the synthesized `Separator`
after the `RightParen`, but the code runs `ensureSeparator()` *before*
emitting the closing kind, so the stream differs from the claimed one. -/
theorem C1_counterexample :
    kindStrNum (Tokenize "f := (x) => x + 1" false false) ≠
      [(Kind.Identifier, "f", (0 : Rat)), (Kind.DefineOp, "", 0), (Kind.LeftParen, "", 0),
       (Kind.Identifier, "x", 0), (Kind.RightParen, "", 0), (Kind.Separator, "", 0),
       (Kind.FunctionArrow, "", 0), (Kind.Identifier, "x", 0), (Kind.AddOp, "", 0),
       (Kind.NumberLiteral, "", 1), (Kind.Separator, "", 0)] := by decide

/-- C1 (amended): for the input `f := (x) => x + 1`, `Tokenize` emits exactly
Identifier "f", DefineOp, LeftParen, Identifier "x", Separator, RightParen,
FunctionArrow, Identifier "x", AddOp, NumberLiteral 1, Separator (positions
disregarded); the synthesized Separator appears immediately *before* the
RightParen token, because `)` first calls `ensureSeparator()` and then emits
the closing kind. -/
theorem C1_theorem :
    kindStrNum (Tokenize "f := (x) => x + 1" false false) =
      [(Kind.Identifier, "f", (0 : Rat)), (Kind.DefineOp, "", 0), (Kind.LeftParen, "", 0),
       (Kind.Identifier, "x", 0), (Kind.Separator, "", 0), (Kind.RightParen, "", 0),
       (Kind.FunctionArrow, "", 0), (Kind.Identifier, "x", 0), (Kind.AddOp, "", 0),
       (Kind.NumberLiteral, "", 1), (Kind.Separator, "", 0)] := by decide

/-- C2 (counterexample): the input `,,` produces two consecutive `Separator`
tokens — each `,` runs `commitChar(Separator)` unconditionally, with no
`lastKind` guard — so the claim fails as stated. -/
theorem C2_counterexample :
    ¬noConsecutiveSeparators (Tokenize ",," false false) := by decide

/-- C2 (amended): for every input containing no `,` rune, the token stream
emitted by `Tokenize` never contains two consecutive `Separator` tokens;
every Separator is then synthesized by `ensureSeparator`, which is guarded
by `lastKind ≠ Separator` (comma-emitted Separators are the sole exception,
as the counterexample shows). -/
theorem C2_theorem (input : String) (fatal debug : Bool)
    (h : ∀ c ∈ input.data, c ≠ ',') :
    noConsecutiveSeparators (Tokenize input fatal debug) :=
  (sepInv_tokenizeSt input.data fatal h).1

/-- C2 witness: the amended theorem applied to the comma-free input
`x\ny`. -/
theorem C2_witness :
    (∀ c ∈ ("x\ny" : String).data, c ≠ ',') ∧
      noConsecutiveSeparators (Tokenize "x\ny" false false) :=
  ⟨by decide, C2_theorem "x\ny" false false (by decide)⟩

/-- C3 (counterexample): scanning `ab'` (the scan state after the main loop
has consumed those three runes from the initial state) leaves the lexer with
`inStringLiteral = true` while `buf = "ab"` is non-empty: entering a string
literal does not flush the pending accumulator, so the claimed invariant
fails. -/
theorem C3_counterexample :
    (loopF 3 (initState false) ['a', 'b', quoteChar]).inStringLiteral = true ∧
      (loopF 3 (initState false) ['a', 'b', quoteChar]).buf = ['a', 'b'] := by decide

/-- C3 (amended): `buf` may be non-empty while `in_string` is true; entering
a string literal does not flush it.  While `in_string` holds, no step of the
main loop modifies `buf` except the closing quote, which flushes it
(committing any pending token) before the `StringLiteral` is emitted and
clears the mode flag. -/
theorem C3_theorem (st : LexState) (char : Char) (rest : List Char)
    (hin : st.inStringLiteral = true) :
    (char ≠ quoteChar → (dispatch st char rest).1.buf = st.buf ∧
        (dispatch st char rest).1.inStringLiteral = true) ∧
    (char = quoteChar → (dispatch st char rest).1.buf = [] ∧
        (dispatch st char rest).1.inStringLiteral = false) := by
  constructor
  · intro hq
    by_cases h3 : char = '\n'
    · simp only [dispatch, if_neg hq, if_pos hin, if_pos h3]
      exact ⟨by trivial, hin⟩
    by_cases h4 : char = '\\'
    · rcases rest with _ | ⟨c, rest2⟩
      · simp only [dispatch, if_neg hq, if_pos hin, if_neg h3, if_pos h4]
        exact ⟨by trivial, hin⟩
      · simp only [dispatch, if_neg hq, if_pos hin, if_neg h3, if_pos h4]
        exact ⟨by trivial, hin⟩
    · simp only [dispatch, if_neg hq, if_pos hin, if_neg h3, if_neg h4]
      exact ⟨by trivial, hin⟩
  · intro hq
    simp only [dispatch, if_pos hq, if_pos hin]
    constructor
    · exact commitClear_buf st
    · show (!(commitClear st).inStringLiteral) = false
      rw [commitClear_inString, hin]
      rfl

/-- C3 witness: the amended theorem applied to a concrete in-string state and
the rune `x`. -/
theorem C3_witness :
    ((⟨['a', 'b'], [], 1, 3, Kind.Separator, 1, 4, true, [], [], false⟩ :
        LexState).inStringLiteral = true) ∧
      (('x' ≠ quoteChar →
          (dispatch ⟨['a', 'b'], [], 1, 3, Kind.Separator, 1, 4, true, [], [], false⟩ 'x' []).1.buf =
              (⟨['a', 'b'], [], 1, 3, Kind.Separator, 1, 4, true, [], [], false⟩ : LexState).buf ∧
            (dispatch ⟨['a', 'b'], [], 1, 3, Kind.Separator, 1, 4, true, [], [], false⟩ 'x'
                []).1.inStringLiteral = true) ∧
        ('x' = quoteChar →
          (dispatch ⟨['a', 'b'], [], 1, 3, Kind.Separator, 1, 4, true, [], [], false⟩ 'x' []).1.buf = [] ∧
            (dispatch ⟨['a', 'b'], [], 1, 3, Kind.Separator, 1, 4, true, [], [], false⟩ 'x'
                []).1.inStringLiteral = false)) :=
  ⟨rfl, C3_theorem _ 'x' [] rfl⟩

/-- C4 (counterexample): on the input `ab'cd'` the emitted positions violate
both halves of the claim: the pending `Identifier "ab"` is committed at
`(1,4)` *after* which the `StringLiteral` is emitted at its start `(1,3)`
(a decreasing adjacent pair), and the final `Separator` is emitted at
`(1,7)`, one past the last rune of the input. -/
theorem C4_counterexample :
    ¬positionsClaim (String.mk ['a', 'b', quoteChar, 'c', 'd', quoteChar]) false := by decide

/-- C4 (amended): positions are not always rune-accurate nor monotone (see
the counterexample); what does hold for every input and every emitted token
is that the token's line number is at least 1 and at most the final value of
the lexer's line counter. -/
theorem C4_theorem (input : String) (fatal : Bool) (t : Tok)
    (ht : t ∈ Tokenize input fatal false) :
    1 ≤ t.line ∧ t.line ≤ (tokenizeSt input.data fatal).lineNo :=
  (lineInv_tokenizeSt input.data fatal).2.2 t ht

/-- C4 witness: the amended theorem applied to the input `x` and its
Identifier token. -/
theorem C4_witness :
    ((⟨Kind.Identifier, "x", 0, 1, 1⟩ : Tok) ∈ Tokenize "x" false false) ∧
      (1 ≤ (⟨Kind.Identifier, "x", 0, 1, 1⟩ : Tok).line ∧
        (⟨Kind.Identifier, "x", 0, 1, 1⟩ : Tok).line ≤
          (tokenizeSt ("x" : String).data false).lineNo) :=
  ⟨by decide, C4_theorem "x" false _ (by decide)⟩

/-- C5: on reading `.` outside a string, if `buf` is empty or contains any
non-digit rune the lexer emits `AccessorOp` (committing any pending `buf`
first, via `commitChar`); if `buf` is non-empty and all digits it appends
`.` to `buf` instead; consequently `1.2.3` produces NumberLiteral 1.2 (the
exact rational 6/5), AccessorOp, NumberLiteral 3, plus the trailing
Separator. -/
theorem C5_theorem :
    (∀ (st : LexState) (rest : List Char), st.inStringLiteral = false →
        st.buf.any (fun d => !isDigit d) = true ∨ st.buf = [] →
        dispatch st '.' rest = (commitChar st Kind.AccessorOp, rest)) ∧
    (∀ (st : LexState) (rest : List Char), st.inStringLiteral = false →
        st.buf ≠ [] → (∀ d ∈ st.buf, isDigit d = true) →
        dispatch st '.' rest = ({ st with buf := st.buf ++ ['.'] }, rest)) ∧
    kindStrNum (Tokenize "1.2.3" false false) =
      [(Kind.NumberLiteral, "", mkRat 6 5), (Kind.AccessorOp, "", 0),
       (Kind.NumberLiteral, "", 3), (Kind.Separator, "", 0)] := by
  refine ⟨?_, ?_, by decide⟩
  · intro st rest hin hb
    rcases hb with hb | hb
    · simp [dispatch, hin, hb, quoteChar, commentChar, isSpace]
    · simp [dispatch, hin, hb, quoteChar, commentChar, isSpace]
  · intro st rest hin hne hall
    have hb : st.buf.any (fun d => !isDigit d) = false := by
      rw [List.any_eq_false]
      intro d hd
      simp [hall d hd]
    simp [dispatch, hin, hb, hne, quoteChar, commentChar, isSpace]

/-- C5 witness: the AccessorOp branch applied to a state with the non-digit
pending buffer `a`. -/
theorem C5_witness :
    ((⟨['a'], [], 0, 0, Kind.Separator, 1, 2, false, [], [], false⟩ :
          LexState).inStringLiteral = false ∧
        ((⟨['a'], [], 0, 0, Kind.Separator, 1, 2, false, [], [], false⟩ :
            LexState).buf.any (fun d => !isDigit d) = true ∨
          (⟨['a'], [], 0, 0, Kind.Separator, 1, 2, false, [], [], false⟩ :
            LexState).buf = [])) ∧
      dispatch ⟨['a'], [], 0, 0, Kind.Separator, 1, 2, false, [], [], false⟩ '.' [] =
        (commitChar ⟨['a'], [], 0, 0, Kind.Separator, 1, 2, false, [], [], false⟩
          Kind.AccessorOp, []) :=
  ⟨⟨rfl, by decide⟩, C5_theorem.1 _ [] rfl (by decide)⟩

/-- C6: when `commitClear` parses a digit-initial `buf` that fails float
parsing with `fatalError = false`, a recoverable syntax error with message
`parsing error in number at L:C, <parser message>` is reported via the safe
log path, scanning continues, and a `NumberLiteral` carrying the failed
parse's value 0 is still emitted; and (for every input and flag) a
number-parse `SyntaxError` on the path selected by `fatalError` is the only
error the lexer ever raises. -/
theorem C6_theorem :
    (∀ (input : String) (fatal : Bool), ∀ e ∈ TokenizeErrs input fatal,
        e.reason = ErrReason.syntaxError ∧ e.safe = !fatal) ∧
    TokenizeErrs "1a b" false =
      [{ reason := ErrReason.syntaxError,
         message := "parsing error in number at 1:3, strconv.ParseFloat: parsing \x221a\x22: invalid syntax",
         safe := true }] ∧
    Tokenize "1a b" false false =
      [⟨Kind.NumberLiteral, "", 0, 1, 1⟩, ⟨Kind.Identifier, "b", 0, 1, 4⟩,
       ⟨Kind.Separator, "", 0, 1, 5⟩] := by
  refine ⟨?_, by decide, by decide⟩
  intro input fatal e he
  exact (errInv_tokenizeSt input.data fatal).2 e he

/-- C6 witness: the universal part applied to the input `1a b` and its
recorded diagnostic. -/
theorem C6_witness :
    ((⟨ErrReason.syntaxError,
        "parsing error in number at 1:3, strconv.ParseFloat: parsing \x221a\x22: invalid syntax",
        true⟩ : LoggedErr) ∈ TokenizeErrs "1a b" false) ∧
      ((⟨ErrReason.syntaxError,
          "parsing error in number at 1:3, strconv.ParseFloat: parsing \x221a\x22: invalid syntax",
          true⟩ : LoggedErr).reason = ErrReason.syntaxError ∧
        (⟨ErrReason.syntaxError,
          "parsing error in number at 1:3, strconv.ParseFloat: parsing \x221a\x22: invalid syntax",
          true⟩ : LoggedErr).safe = !false) :=
  ⟨by decide, C6_theorem.1 "1a b" false _ (by decide)⟩

/-- C7: inside a string literal a backslash causes the immediately following
rune to be appended to the string buffer verbatim (no escape translation),
and the input `'hi\n'` (quote, h, i, backslash, n, quote) lexes as
StringLiteral "hin" followed by a Separator. -/
theorem C7_theorem :
    (∀ (st : LexState) (c : Char) (rest : List Char), st.inStringLiteral = true →
        dispatch st '\\' (c :: rest) =
          ({ st with strbuf := st.strbuf ++ [c], colNo := st.colNo + 1 }, rest)) ∧
    (tokenizeSt [quoteChar, 'h', 'i', '\\', 'n', quoteChar] false).toks =
      [⟨Kind.StringLiteral, "hin", 0, 1, 1⟩, ⟨Kind.Separator, "", 0, 1, 7⟩] := by
  refine ⟨?_, by decide⟩
  intro st c rest hin
  simp [dispatch, hin, quoteChar]

/-- C7 witness: the escape step applied to a concrete in-string state with
next rune `n`. -/
theorem C7_witness :
    ((⟨[], ['h'], 1, 1, Kind.Separator, 1, 3, true, [], [], false⟩ :
        LexState).inStringLiteral = true) ∧
      dispatch ⟨[], ['h'], 1, 1, Kind.Separator, 1, 3, true, [], [], false⟩ '\\' ['n'] =
        ({ (⟨[], ['h'], 1, 1, Kind.Separator, 1, 3, true, [], [], false⟩ : LexState) with
            strbuf := ['h', 'n'], colNo := 4 }, []) :=
  ⟨rfl, C7_theorem.1 _ 'n' [] rfl⟩

/-- C8: if and only if the first two bytes of input are `#!`, the lexer
discards all runes up to and including the next newline before the main
loop and increments `line` (the two general equations), producing no token
for the discarded prefix; `#!/usr/bin/env ink\nx` lexes as exactly
Identifier "x", Separator (on line 2), while `#x\ny` — not a shebang —
keeps the `#` in the identifier. -/
theorem C8_theorem :
    (∀ (input : List Char) (fatal : Bool), input.take 2 = ['#', '!'] →
        tokenizeSt input fatal =
          ensureSeparator (loopF input.length { initState fatal with lineNo := 2 }
            (dropThroughNewline input))) ∧
    (∀ (input : List Char) (fatal : Bool), input.take 2 ≠ ['#', '!'] →
        tokenizeSt input fatal =
          ensureSeparator (loopF input.length (initState fatal) input)) ∧
    Tokenize "#!/usr/bin/env ink\nx" false false =
      [⟨Kind.Identifier, "x", 0, 2, 1⟩, ⟨Kind.Separator, "", 0, 2, 2⟩] ∧
    Tokenize "#x\ny" false false =
      [⟨Kind.Identifier, "#x", 0, 1, 1⟩, ⟨Kind.Separator, "", 0, 1, 3⟩,
       ⟨Kind.Identifier, "y", 0, 2, 1⟩, ⟨Kind.Separator, "", 0, 2, 2⟩] := by
  refine ⟨?_, ?_, by decide, by decide⟩
  · intro input fatal h
    unfold tokenizeSt
    simp only []
    rw [if_pos h]
  · intro input fatal h
    unfold tokenizeSt
    simp only []
    rw [if_neg h]

/-- C8 witness: the shebang equation applied to the input `#!a`. -/
theorem C8_witness :
    (['#', '!', 'a'].take 2 = ['#', '!']) ∧
      tokenizeSt ['#', '!', 'a'] false =
        ensureSeparator (loopF (['#', '!', 'a'] : List Char).length
          { initState false with lineNo := 2 } (dropThroughNewline ['#', '!', 'a'])) :=
  ⟨by decide, C8_theorem.1 ['#', '!', 'a'] false (by decide)⟩

/-- C9: a block comment (backquote, non-backquote, consumed to the next
backquote) synthesizes no Separator, while a single-line comment (two
backquotes, consumed to end of line) calls `ensureSeparator`; the claim's
input — backquote b l o c k backquote, space, x, newline — lexes as exactly
Identifier "x", Separator.  The two contrast inputs make the difference
observable after a `RightParen`: a block comment swallowing a newline adds
no Separator, a single-line comment does. -/
theorem C9_theorem :
    kindStrNum (tokenizeSt ([commentChar] ++ "block".data ++ [commentChar] ++ " x\n".data)
        false).toks =
      [(Kind.Identifier, "x", (0 : Rat)), (Kind.Separator, "", 0)] ∧
    (tokenizeSt [')', commentChar, 'c', '\n', 'c', commentChar, 'x'] false).toks.map Tok.kind =
      [Kind.RightParen, Kind.Identifier, Kind.Separator] ∧
    (tokenizeSt [')', commentChar, commentChar, 'c', '\n', 'x'] false).toks.map Tok.kind =
      [Kind.RightParen, Kind.Separator, Kind.Identifier, Kind.Separator] :=
  ⟨by decide, by decide, by decide⟩

/-- C10: if the input ends immediately after `:`, `=` or `-` (the read of
the disambiguating rune hits EOF), no operator token is emitted for that
rune at all — the inner `break` leaves the switch and the loop then ends,
so only the final `ensureSeparator` flush runs; `a=` lexes as
Identifier "a", Separator with no EqualOp. -/
theorem C10_theorem :
    (∀ st : LexState, st.inStringLiteral = false →
        dispatch st ':' [] = (st, []) ∧ dispatch st '=' [] = (st, []) ∧
          dispatch st '-' [] = (st, [])) ∧
    Tokenize "a=" false false =
      [⟨Kind.Identifier, "a", 0, 1, 2⟩, ⟨Kind.Separator, "", 0, 1, 3⟩] := by
  refine ⟨?_, by decide⟩
  intro st hin
  refine ⟨?_, ?_, ?_⟩ <;> simp [dispatch, hin, quoteChar, commentChar, isSpace]

/-- C10 witness: the EOF equations applied to a concrete state with pending
buffer `a`. -/
theorem C10_witness :
    ((⟨['a'], [], 0, 0, Kind.Separator, 1, 3, false, [], [], false⟩ :
        LexState).inStringLiteral = false) ∧
      (dispatch ⟨['a'], [], 0, 0, Kind.Separator, 1, 3, false, [], [], false⟩ ':' [] =
          (⟨['a'], [], 0, 0, Kind.Separator, 1, 3, false, [], [], false⟩, []) ∧
        dispatch ⟨['a'], [], 0, 0, Kind.Separator, 1, 3, false, [], [], false⟩ '=' [] =
          (⟨['a'], [], 0, 0, Kind.Separator, 1, 3, false, [], [], false⟩, []) ∧
        dispatch ⟨['a'], [], 0, 0, Kind.Separator, 1, 3, false, [], [], false⟩ '-' [] =
          (⟨['a'], [], 0, 0, Kind.Separator, 1, 3, false, [], [], false⟩, [])) :=
  ⟨rfl, C10_theorem.1 _ rfl⟩

end Ink
